import Mathlib

/-!
Verification of the flexbox-like layout engine in `talkie/layout.py`.

The Python module is shallowly embedded: every function below mirrors one
function of the source (names follow the source, with the leading underscore
dropped).  Python integers become `Int`; Python's floor division `//` becomes
`Int.fdiv`; `None`-able values become `Option`; a raised `ValueError` becomes
`Except.error ()`.

Size specifications: the layout passes of the source manipulate specs of the
shape accepted by `_parse_dimension` — a decimal pixel token or a numeric
percentage token — so for the layout functions a spec is embedded as the
inductive `SizeVal` (`pix` for pixel tokens, `pct` for percentage tokens) and
an absent spec as `none`.  Percentage arithmetic (`int(container_size *
percent / 100)` in the source, evaluated in floating point) is modelled
exactly over `Rat`; the truncation of Python's `int()` (toward zero) is
`Int.tdiv` of the numerator by the denominator.  The raw-string level of
`_parse_dimension`, including the `ValueError` raised on malformed numeric
parts, is embedded separately below as `parse_dimension` over `String`.
-/

/-- Final positioned rectangle for a UI element (class `Rectangle`). -/
structure Rectangle where
  name : String
  x : Int
  y : Int
  width : Int
  height : Int
deriving DecidableEq, Repr

/-- Well-formed one-axis size token as consumed by `_parse_dimension`:
a pixel count (`"100"`) or a percentage (`"50%"`). -/
inductive SizeVal where
  | pix : Int → SizeVal
  | pct : Rat → SizeVal
deriving DecidableEq, Repr

/-- Intermediate representation of a UI element (class `LayoutNode`):
name, (width_spec, height_spec), layout ("horiz" or "vert"), border, gap,
children, attributes. -/
inductive LayoutNode where
  | mk : String → Option SizeVal × Option SizeVal → String → Int → Int →
      List LayoutNode → List (String × String) → LayoutNode

def LayoutNode.name : LayoutNode → String
  | .mk n _ _ _ _ _ _ => n

def LayoutNode.size : LayoutNode → Option SizeVal × Option SizeVal
  | .mk _ s _ _ _ _ _ => s

def LayoutNode.layout : LayoutNode → String
  | .mk _ _ l _ _ _ _ => l

def LayoutNode.border : LayoutNode → Int
  | .mk _ _ _ b _ _ _ => b

def LayoutNode.gap : LayoutNode → Int
  | .mk _ _ _ _ g _ _ => g

def LayoutNode.children : LayoutNode → List LayoutNode
  | .mk _ _ _ _ _ c _ => c

def LayoutNode.attributes : LayoutNode → List (String × String)
  | .mk _ _ _ _ _ _ a => a

/-- Truncation toward zero of the exact rational `cs * percent / 100`;
this is Python's `int(container_size * percent / 100)` from
`_parse_dimension` (the source computes it in floating point, which agrees
with the exact value on the decimal percentages handled here). -/
def pctDim (containerSize : Int) (percent : Rat) : Int :=
  Int.tdiv (containerSize * percent.num) ((percent.den : Int) * 100)

/-- Value-level `_parse_dimension`: resolves a well-formed spec against a
container size; `none` (absent spec) is flexible. -/
def parse_dim (spec : Option SizeVal) (containerSize : Int) : Option Int :=
  match spec with
  | none => none
  | some (.pix n) => some n
  | some (.pct q) => some (pctDim containerSize q)

/-- Python's `a or b` for `a` an optional integer: `b` when `a` is `None`
or `0` (both falsy), otherwise the value of `a`. -/
def pyOr (a : Option Int) (b : Int) : Int :=
  match a with
  | none => b
  | some v => if v = 0 then b else v

mutual

/-- Embeds `_requires_minimum_height`: whether a node requires minimum
height and cannot be flexible.  Source comments: the "horiz" branch returns
`True` only if no child is flexible in height; the "vert" branch returns the
negation of "has a flexible child". -/
def requires_minimum_height : LayoutNode → Bool
  | .mk _ _ ly _ _ children _ =>
    if children.isEmpty then false
    else if ly = "horiz" then noFlexibleChild children
    else !(hasFlexibleChild children)

/-- Loop of the "horiz" branch of `_requires_minimum_height`: `false` as
soon as some child has `size[1] is None` and does not itself require a
minimum height. -/
def noFlexibleChild : List LayoutNode → Bool
  | [] => true
  | c :: rest =>
    if c.size.2.isNone && !(requires_minimum_height c) then false
    else noFlexibleChild rest

/-- Loop of the "vert" branch of `_requires_minimum_height` (the
`has_flex_child` flag with early break). -/
def hasFlexibleChild : List LayoutNode → Bool
  | [] => false
  | c :: rest =>
    if c.size.2.isNone && !(requires_minimum_height c) then true
    else hasFlexibleChild rest

end

mutual

/-- Embeds `_calculate_min_height`: minimum height needed for a node based
on its content.  A node with no children needs `border * 2`; a "vert" node
sums child heights plus gaps plus border; otherwise the maximum child height
plus border. -/
def calculate_min_height : LayoutNode → Int
  | .mk _ _ ly border gap children _ =>
    if children.isEmpty then border * 2
    else if ly = "vert" then
      sumChildMinHeights children +
        (if 1 < children.length then gap * ((children.length - 1 : Nat) : Int) else 0) +
        border * 2
    else
      maxChildMinHeights children + border * 2

/-- Summation loop of the "vert" branch of `_calculate_min_height`; a child
with a resolvable height spec (resolved against the constant `1000` of the
source) contributes that value, a flexible child its own minimum height. -/
def sumChildMinHeights : List LayoutNode → Int
  | [] => 0
  | c :: rest =>
    (match parse_dim c.size.2 1000 with
     | some hh => hh
     | none => calculate_min_height c) + sumChildMinHeights rest

/-- Maximum loop of the "horiz" branch of `_calculate_min_height` (the
`max_height` accumulator starting at `0`). -/
def maxChildMinHeights : List LayoutNode → Int
  | [] => 0
  | c :: rest =>
    max (match parse_dim c.size.2 1000 with
         | some hh => hh
         | none => calculate_min_height c)
      (maxChildMinHeights rest)

end

/-- Total gap space of a child run: `node.gap * (len(children) - 1)` when
there is more than one child, else `0` (both placement passes). -/
def totalGap (gap : Int) (children : List LayoutNode) : Int :=
  if 1 < children.length then gap * ((children.length - 1 : Nat) : Int) else 0

/-- First pass of `_layout_children_horizontal` over the children: returns
`(fixed_width_total, flex_count)`; a child whose width spec resolves is
fixed, any other child joins the flexible pool. -/
def fixedFlexH (children : List LayoutNode) (contentWidth : Int) : Int × Int :=
  match children with
  | [] => (0, 0)
  | c :: rest =>
    let p := fixedFlexH rest contentWidth
    match parse_dim c.size.1 contentWidth with
    | none => (p.1, p.2 + 1)
    | some w => (p.1 + w, p.2)

/-- Lines 156–157 of the source: the width handed to each flexible child,
`remaining_width // flex_count` (floor division) when the pool is nonempty,
else `0`. -/
def flexWidthH (gap : Int) (children : List LayoutNode) (contentWidth : Int) : Int :=
  let p := fixedFlexH children contentWidth
  let remaining := contentWidth - p.1 - totalGap gap children
  if 0 < p.2 then Int.fdiv remaining p.2 else 0

/-- Width resolution of line 163 of the source for one horizontal child:
`child_widths[i] if child_widths[i] is not None else flex_width` (the entry
of `child_widths` being `_parse_dimension(child.size[0], content_width)`). -/
def resolveChildWidthH (c : LayoutNode) (contentWidth flexWidth : Int) : Int :=
  match parse_dim c.size.1 contentWidth with
  | some w => w
  | none => flexWidth

/-- Height resolution of line 164 of the source for one horizontal child:
`_parse_dimension(child.size[1], content_height) or content_height`. -/
def resolveChildHeightH (c : LayoutNode) (contentHeight : Int) : Int :=
  pyOr (parse_dim c.size.2 contentHeight) contentHeight

/-- First pass of `_layout_children_vertical`: returns
`(fixed_height_total, flex_count)`; a child with unresolved height spec is
counted fixed at its minimum height when that minimum is positive and the
child requires it, and flexible otherwise. -/
def fixedFlexV (children : List LayoutNode) (contentHeight : Int) : Int × Int :=
  match children with
  | [] => (0, 0)
  | c :: rest =>
    let p := fixedFlexV rest contentHeight
    match parse_dim c.size.2 contentHeight with
    | none =>
      if 0 < calculate_min_height c ∧ requires_minimum_height c = true then
        (p.1 + calculate_min_height c, p.2)
      else (p.1, p.2 + 1)
    | some hh => (p.1 + hh, p.2)

/-- Lines 216–219 of the source: the extra height handed to each truly
flexible vertical child, `remaining_height // flex_count` when the pool is
nonempty and some height remains, else `0`. -/
def flexExtraV (gap : Int) (children : List LayoutNode) (contentHeight : Int) : Int :=
  let p := fixedFlexV children contentHeight
  let remaining := contentHeight - p.1 - totalGap gap children
  if 0 < p.2 ∧ 0 < remaining then Int.fdiv remaining p.2 else 0

/-- Height resolution of lines 227–232 of the source for one vertical
child: the entry of `child_heights` (fixed value, or minimum height for a
child that requires one) when present, else the flexible share. -/
def resolveChildHeightV (c : LayoutNode) (contentHeight flexExtra : Int) : Int :=
  match parse_dim c.size.2 contentHeight with
  | some hh => hh
  | none =>
    if 0 < calculate_min_height c ∧ requires_minimum_height c = true then
      calculate_min_height c
    else flexExtra

/-- Width resolution of line 225 of the source for one vertical child:
`_parse_dimension(child.size[0], content_width) or content_width`. -/
def resolveChildWidthV (c : LayoutNode) (contentWidth : Int) : Int :=
  pyOr (parse_dim c.size.1 contentWidth) contentWidth

mutual

/-- Embeds `_layout_node_recursive`: emit this node's rectangle, stop at
leaves or when the content area (inside the border) is not positive, else
dispatch on the layout direction (the bodies of `_layout_children_horizontal`
and `_layout_children_vertical` — compute the flexible share, then run the
positioning loop over the children — appear inlined here so that the
recursion is structural; the wrappers `layout_children_horizontal` and
`layout_children_vertical` below restate them under the source's names). -/
def layout_node_recursive : LayoutNode → Int → Int → Int → Int → List Rectangle
  | .mk nm _ ly border gap children _, x, y, width, height =>
    let self : Rectangle := ⟨nm, x, y, width, height⟩
    if children.isEmpty then [self]
    else
      let content_x := x + border
      let content_y := y + border
      let content_width := width - 2 * border
      let content_height := height - 2 * border
      if content_width ≤ 0 ∨ content_height ≤ 0 then [self]
      else if ly = "vert" then
        self :: placeV gap content_x content_width content_height
          (flexExtraV gap children content_height) children content_y
      else
        self :: placeH gap content_y content_width content_height
          (flexWidthH gap children content_width) children content_x

/-- Positioning loop of `_layout_children_horizontal`: each child is laid
out at the running x with its resolved width and height, and the position
advances by the child's width plus the gap (no gap after the last child). -/
def placeH (gap : Int) (cy cw ch flexWidth : Int) :
    List LayoutNode → Int → List Rectangle
  | [], _ => []
  | c :: rest, curX =>
    let child_width := resolveChildWidthH c cw flexWidth
    let child_height := resolveChildHeightH c ch
    layout_node_recursive c curX cy child_width child_height ++
      placeH gap cy cw ch flexWidth rest
        (curX + child_width + (if rest.isEmpty then 0 else gap))

/-- Positioning loop of `_layout_children_vertical`. -/
def placeV (gap : Int) (cx cw ch flexExtra : Int) :
    List LayoutNode → Int → List Rectangle
  | [], _ => []
  | c :: rest, curY =>
    let child_width := resolveChildWidthV c cw
    let child_height := resolveChildHeightV c ch flexExtra
    layout_node_recursive c cx curY child_width child_height ++
      placeV gap cx cw ch flexExtra rest
        (curY + child_height + (if rest.isEmpty then 0 else gap))

end

/-- Embeds `_layout_children_horizontal` (the node's `gap` and `children`
are passed explicitly): compute the flexible width, then place the children
left to right. -/
def layout_children_horizontal (gap : Int) (children : List LayoutNode)
    (cx cy cw ch : Int) : List Rectangle :=
  placeH gap cy cw ch (flexWidthH gap children cw) children cx

/-- Embeds `_layout_children_vertical`: compute the flexible extra height,
then place the children top to bottom. -/
def layout_children_vertical (gap : Int) (children : List LayoutNode)
    (cx cy cw ch : Int) : List Rectangle :=
  placeV gap cx cw ch (flexExtraV gap children ch) children cy

/-- Embeds `layout_tree_to_rectangles`: lay the root out at the origin with
the given container size. -/
def layout_tree_to_rectangles (root : LayoutNode) (containerSize : Int × Int) :
    List Rectangle :=
  layout_node_recursive root 0 0 containerSize.1 containerSize.2

mutual

/-- Embeds `find_node_by_name`: the node itself when its name matches, else
the first match found in the children in order (pre-order depth-first). -/
def find_node_by_name : LayoutNode → String → Option LayoutNode
  | t@(.mk nm _ _ _ _ children _), name =>
    if nm = name then some t else findInChildren children name

/-- Loop of `find_node_by_name` over the children: the first child subtree
producing a result wins. -/
def findInChildren : List LayoutNode → String → Option LayoutNode
  | [], _ => none
  | c :: rest, name =>
    match find_node_by_name c name with
    | some r => some r
    | none => findInChildren rest name

end

/-- Embeds `Layout.layout`: the root size is `width or
_parse_dimension(root.size[0], 0) or 800` (and `600` for the height), a
chain of Python `or`s in which both `None` and `0` fall through. -/
def Layout.layout (root : LayoutNode) (width height : Option Int) : List Rectangle :=
  let root_width := pyOr width (pyOr (parse_dim root.size.1 0) 800)
  let root_height := pyOr height (pyOr (parse_dim root.size.2 0) 600)
  layout_tree_to_rectangles root (root_width, root_height)

/-- Mutation applied by `Layout.set_size` to the found node: `node.size =
(width_spec, height_spec)` where each given argument becomes the fixed pixel
token `str(value)` and each absent argument becomes `None`. -/
def setSizeNode (node : LayoutNode) (width height : Option Int) : LayoutNode :=
  match node with
  | .mk nm _ ly b g cs attrs =>
    .mk nm (width.map SizeVal.pix, height.map SizeVal.pix) ly b g cs attrs

mutual

/-- Embeds `Layout.set_size` as a function from the root to the updated
root: the source calls `find_node_by_name` and mutates the found node in
place, which rebuilds the tree with the first pre-order node of the given
name updated and everything else untouched (a no-op when no node matches). -/
def Layout.set_size : LayoutNode → String → Option Int → Option Int → LayoutNode
  | t@(.mk nm sz ly b g children attrs), name, w, h =>
    if nm = name then setSizeNode t w h
    else .mk nm sz ly b g (setSizeChildren children name w h) attrs

/-- Children traversal of `Layout.set_size`: the update goes into the first
child subtree containing the name (the subtree where `find_node_by_name`
finds its match), later siblings stay untouched. -/
def setSizeChildren : List LayoutNode → String → Option Int → Option Int → List LayoutNode
  | [], _, _, _ => []
  | c :: rest, name, w, h =>
    if (find_node_by_name c name).isSome then Layout.set_size c name w h :: rest
    else c :: setSizeChildren rest name w h

end

mutual

/-- Number of nodes of a layout tree (the root included). -/
def countNodes : LayoutNode → Nat
  | .mk _ _ _ _ _ children _ => 1 + countNodesList children

def countNodesList : List LayoutNode → Nat
  | [] => 0
  | c :: rest => countNodes c + countNodesList rest

end

mutual

/-- Names of the nodes of a layout tree in pre-order. -/
def preorderNames : LayoutNode → List String
  | .mk nm _ _ _ _ children _ => nm :: preorderNamesList children

def preorderNamesList : List LayoutNode → List String
  | [] => []
  | c :: rest => preorderNames c ++ preorderNamesList rest

end

/-- Everything a node carries besides the identity of its children: used to
express that an operation touches nothing but one node's `size`. -/
structure NodeShell where
  name : String
  size : Option SizeVal × Option SizeVal
  layout : String
  border : Int
  gap : Int
  attributes : List (String × String)
  childCount : Nat
deriving DecidableEq, Repr

def shellOf : LayoutNode → NodeShell
  | .mk nm sz ly b g cs attrs => ⟨nm, sz, ly, b, g, attrs, cs.length⟩

mutual

/-- Shells of the nodes of a layout tree in pre-order. -/
def preorderShells : LayoutNode → List NodeShell
  | t@(.mk _ _ _ _ _ children _) => shellOf t :: preorderShellsList children

def preorderShellsList : List LayoutNode → List NodeShell
  | [] => []
  | c :: rest => preorderShells c ++ preorderShellsList rest

end

/-- Reference effect of `set_size` on a pre-order shell list: replace the
size of the first shell with the given name (both axes, a missing argument
becoming unspecified) and keep every other shell as it is. -/
def setSizeShells (name : String) (w h : Option Int) : List NodeShell → List NodeShell
  | [] => []
  | s :: rest =>
    if s.name = name then
      { s with size := (w.map SizeVal.pix, h.map SizeVal.pix) } :: rest
    else s :: setSizeShells name w h rest

/-- Non-negativity of one size spec, as required by the data model of the
specification (fixed pixels a non-negative integer, percentage a
non-negative number). -/
def wfSpec : Option SizeVal → Bool
  | none => true
  | some (.pix n) => decide (0 ≤ n)
  | some (.pct q) => decide (0 ≤ q)

mutual

/-- A tree respecting the data model: non-negative border, gap and size
specs everywhere. -/
def wfNode : LayoutNode → Bool
  | .mk _ sz _ b g children _ =>
    decide (0 ≤ b) && decide (0 ≤ g) && wfSpec sz.1 && wfSpec sz.2 &&
      wfChildren children

def wfChildren : List LayoutNode → Bool
  | [] => true
  | c :: rest => wfNode c && wfChildren rest

end

mutual

/-- Whether the pass rooted at this node places every node of the subtree:
mirrors the recursion of `layout_node_recursive` and is `false` as soon as a
node with children ends up with a non-positive content area (its children
are then dropped from the output). -/
def allPlaced : LayoutNode → Int → Int → Int → Int → Bool
  | .mk _ _ ly border gap children _, x, y, width, height =>
    if children.isEmpty then true
    else
      let content_x := x + border
      let content_y := y + border
      let content_width := width - 2 * border
      let content_height := height - 2 * border
      if content_width ≤ 0 ∨ content_height ≤ 0 then false
      else if ly = "vert" then
        allPlacedV gap content_x content_width content_height
          (flexExtraV gap children content_height) children content_y
      else
        allPlacedH gap content_y content_width content_height
          (flexWidthH gap children content_width) children content_x

def allPlacedH (gap : Int) (cy cw ch flexWidth : Int) :
    List LayoutNode → Int → Bool
  | [], _ => true
  | c :: rest, curX =>
    allPlaced c curX cy (resolveChildWidthH c cw flexWidth)
        (resolveChildHeightH c ch) &&
      allPlacedH gap cy cw ch flexWidth rest
        (curX + resolveChildWidthH c cw flexWidth + (if rest.isEmpty then 0 else gap))

def allPlacedV (gap : Int) (cx cw ch flexExtra : Int) :
    List LayoutNode → Int → Bool
  | [], _ => true
  | c :: rest, curY =>
    allPlaced c cx curY (resolveChildWidthV c cw)
        (resolveChildHeightV c ch flexExtra) &&
      allPlacedV gap cx cw ch flexExtra rest
        (curY + resolveChildHeightV c ch flexExtra + (if rest.isEmpty then 0 else gap))

end

mutual

/-- State-threaded rendering of `_layout_node_recursive`: the source only
ever reads the tree, so the embedding makes that explicit by returning,
next to the rectangles, the tree as the pass leaves it (each node rebuilt
from the children returned by the recursive calls). -/
def layout_node_recursiveS : LayoutNode → Int → Int → Int → Int →
    LayoutNode × List Rectangle
  | t@(.mk nm sz ly border gap children attrs), x, y, width, height =>
    let self : Rectangle := ⟨nm, x, y, width, height⟩
    if children.isEmpty then (t, [self])
    else
      let content_x := x + border
      let content_y := y + border
      let content_width := width - 2 * border
      let content_height := height - 2 * border
      if content_width ≤ 0 ∨ content_height ≤ 0 then (t, [self])
      else if ly = "vert" then
        let p := placeVS gap content_x content_width content_height
          (flexExtraV gap children content_height) children content_y
        (.mk nm sz ly border gap p.1 attrs, self :: p.2)
      else
        let p := placeHS gap content_y content_width content_height
          (flexWidthH gap children content_width) children content_x
        (.mk nm sz ly border gap p.1 attrs, self :: p.2)

def placeHS (gap : Int) (cy cw ch flexWidth : Int) :
    List LayoutNode → Int → List LayoutNode × List Rectangle
  | [], _ => ([], [])
  | c :: rest, curX =>
    let child_width := resolveChildWidthH c cw flexWidth
    let child_height := resolveChildHeightH c ch
    let q := layout_node_recursiveS c curX cy child_width child_height
    let r := placeHS gap cy cw ch flexWidth rest
      (curX + child_width + (if rest.isEmpty then 0 else gap))
    (q.1 :: r.1, q.2 ++ r.2)

def placeVS (gap : Int) (cx cw ch flexExtra : Int) :
    List LayoutNode → Int → List LayoutNode × List Rectangle
  | [], _ => ([], [])
  | c :: rest, curY =>
    let child_width := resolveChildWidthV c cw
    let child_height := resolveChildHeightV c ch flexExtra
    let q := layout_node_recursiveS c cx curY child_width child_height
    let r := placeVS gap cx cw ch flexExtra rest
      (curY + child_height + (if rest.isEmpty then 0 else gap))
    (q.1 :: r.1, q.2 ++ r.2)

end

/-- State-threaded rendering of `Layout.layout` (see
`layout_node_recursiveS`). -/
def Layout.layoutS (root : LayoutNode) (width height : Option Int) :
    LayoutNode × List Rectangle :=
  let root_width := pyOr width (pyOr (parse_dim root.size.1 0) 800)
  let root_height := pyOr height (pyOr (parse_dim root.size.2 0) 600)
  layout_node_recursiveS root 0 0 root_width root_height

mutual

/-- Modelled from the spec: the source has no width-axis counterpart of
`_calculate_min_height` (only the height estimator exists), so the
width-axis Minimum-Size Estimator of the specification is modelled from its
words — a leaf has zero minimum; a node laid out along the width (direction
Horizontal) sums its children's resolved or recursive widths plus
`gap * (n - 1)` plus `2 * border`; a node laid out across the width takes
the maximum instead, plus `2 * border`.  Percentage specs are resolved
against the same constant `1000` the height estimator of the source uses. -/
def calculate_min_width : LayoutNode → Int
  | .mk _ _ ly border gap children _ =>
    if children.isEmpty then 0
    else if ly = "horiz" then
      sumChildMinWidths children +
        (if 1 < children.length then gap * ((children.length - 1 : Nat) : Int) else 0) +
        border * 2
    else
      maxChildMinWidths children + border * 2

def sumChildMinWidths : List LayoutNode → Int
  | [] => 0
  | c :: rest =>
    (match parse_dim c.size.1 1000 with
     | some w => w
     | none => calculate_min_width c) + sumChildMinWidths rest

def maxChildMinWidths : List LayoutNode → Int
  | [] => 0
  | c :: rest =>
    max (match parse_dim c.size.1 1000 with
         | some w => w
         | none => calculate_min_width c)
      (maxChildMinWidths rest)

end

mutual

/-- Modelled from the spec: width-axis counterpart of
`_requires_minimum_height`, absent from the source — a node requires a
minimum width iff it has children and none of them is truly flexible in
width (unspecified width spec and itself not requiring a minimum width). -/
def requires_minimum_width : LayoutNode → Bool
  | .mk _ _ _ _ _ children _ =>
    if children.isEmpty then false else noFlexibleChildW children

def noFlexibleChildW : List LayoutNode → Bool
  | [] => true
  | c :: rest =>
    if c.size.1.isNone && !(requires_minimum_width c) then false
    else noFlexibleChildW rest

end

/-- Value of an all-digit character run, most significant digit first. -/
def digitsToNat : List Char → Nat → Nat
  | [], acc => acc
  | c :: rest, acc => digitsToNat rest (acc * 10 + (c.toNat - '0'.toNat))

/-- Models Python `int(s)` on the decimal integer literals relevant here: an
optional sign followed by at least one digit; anything else raises
`ValueError` (`Except.error ()`).  The underscores, surrounding whitespace
and alternative bases Python also accepts do not occur in the inputs
considered. -/
def pyIntParse (s : String) : Except Unit Int :=
  match s.data with
  | '-' :: rest =>
    if rest ≠ [] ∧ rest.all Char.isDigit then .ok (-(digitsToNat rest 0 : Int))
    else .error ()
  | '+' :: rest =>
    if rest ≠ [] ∧ rest.all Char.isDigit then .ok ((digitsToNat rest 0 : Int))
    else .error ()
  | cs =>
    if cs ≠ [] ∧ cs.all Char.isDigit then .ok ((digitsToNat cs 0 : Int))
    else .error ()

/-- Unsigned part of Python `float(s)`: digits with an optional decimal
point, at least one digit overall. -/
def pyFloatUnsigned (cs : List Char) : Except Unit Rat :=
  let intPart := cs.takeWhile Char.isDigit
  let rest := cs.dropWhile Char.isDigit
  match rest with
  | [] =>
    if intPart ≠ [] then .ok ((digitsToNat intPart 0 : Int) : Rat) else .error ()
  | '.' :: fracPart =>
    if fracPart.all Char.isDigit ∧ (intPart ≠ [] ∨ fracPart ≠ []) then
      .ok (mkRat (digitsToNat (intPart ++ fracPart) 0) (10 ^ fracPart.length))
    else .error ()
  | _ => .error ()

/-- Models Python `float(s)` on the decimal literals relevant here (optional
sign, digits, optional fractional part); exponents, `inf`/`nan`, whitespace
and underscores do not occur in the inputs considered.  The resulting value
is exact over `Rat`. -/
def pyFloatParse (s : String) : Except Unit Rat :=
  match s.data with
  | '-' :: rest => (pyFloatUnsigned rest).map Neg.neg
  | '+' :: rest => pyFloatUnsigned rest
  | cs => pyFloatUnsigned cs

/-- String-level embedding of `_parse_dimension`: `None` or the empty
string are unspecified (`ok none`); a spec ending in `%` resolves its
numeric prefix as a float percentage; anything else is parsed with `int()`.
A malformed numeric part makes `float()`/`int()` raise `ValueError`, which
is `Except.error ()` here. -/
def parse_dimension (spec : Option String) (containerSize : Int) :
    Except Unit (Option Int) :=
  match spec with
  | none => .ok none
  | some s =>
    if s.data = [] then .ok none
    else if s.data.getLast? = some '%' then
      match pyFloatParse (String.mk s.data.dropLast) with
      | .ok q => .ok (some (pctDim containerSize q))
      | .error _ => .error ()
    else
      match pyIntParse s with
      | .ok n => .ok (some n)
      | .error _ => .error ()

/-! Concrete trees used as test fixtures in the theorems below. -/

/-- Horizontal container whose fixed child is wider than the container:
the flexible sibling is handed `(100 - 200) // 1 = -100` pixels. -/
def cexC2 : LayoutNode :=
  .mk "r" (none, none) "horiz" 0 0
    [.mk "a" (some (.pix 200), none) "horiz" 0 0 [] [],
     .mk "b" (none, none) "horiz" 0 0 [] []] []

/-- Tree whose node "a" carries explicit specs on both axes. -/
def cexC3 : LayoutNode :=
  .mk "r" (none, none) "horiz" 0 0
    [.mk "a" (some (.pix 10), some (.pix 20)) "horiz" 0 0 [] [],
     .mk "b" (some (.pix 1), some (.pix 2)) "horiz" 0 0 [] []] []

/-- Unsized horizontal container whose only child has a fixed width: the
spec's width-axis Minimum-Size Estimator assigns it a positive minimum. -/
def cexC4A : LayoutNode :=
  .mk "a" (none, none) "horiz" 0 0
    [.mk "al" (some (.pix 60), none) "horiz" 0 0 [] []] []

/-- Horizontal container holding `cexC4A` next to a flexible leaf. -/
def cexC4 : LayoutNode := .mk "r" (none, none) "horiz" 0 0
  [cexC4A, .mk "b" (none, none) "horiz" 0 0 [] []] []

/-- Horizontal node with one fixed-height child and one flexible child. -/
def cexC5 : LayoutNode :=
  .mk "h" (none, none) "horiz" 0 0
    [.mk "f" (none, some (.pix 10)) "horiz" 0 0 [] [],
     .mk "g" (none, none) "horiz" 0 0 [] []] []

/-- Horizontal node whose only child has a fixed height (the "pane" of the
repository's own test suite). -/
def paneC5 : LayoutNode :=
  .mk "pane" (none, none) "horiz" 0 0
    [.mk "input" (none, some (.pix 48)) "horiz" 0 0 [] []] []

/-- Leaf with unspecified size and a positive border. -/
def cexC6 : LayoutNode := .mk "l" (none, none) "horiz" 5 0 [] []

/-- The border-exhaustion tree of the repository's own test
`test_large_border_edge_case`: a 50x50 container with border 30. -/
def cexC7 : LayoutNode :=
  .mk "container" (some (.pix 50), some (.pix 50)) "horiz" 30 0
    [.mk "child" (some (.pix 10), some (.pix 10)) "horiz" 0 0 [] []] []

/-- Small fully-placeable tree (positive content area everywhere). -/
def treeC7w : LayoutNode :=
  .mk "root" (none, none) "vert" 1 1
    [.mk "a" (none, some (.pix 10)) "horiz" 0 0 [] [],
     .mk "b" (none, none) "horiz" 0 0 [] []] []

/-- The flexible-distribution example of the specification: one fixed
`100x50` child and two unspecified siblings in a 600-wide container. -/
def c8tree : LayoutNode :=
  .mk "container" (some (.pix 600), some (.pix 100)) "horiz" 0 0
    [.mk "fixed" (some (.pix 100), some (.pix 50)) "horiz" 0 0 [] [],
     .mk "flex1" (none, none) "horiz" 0 0 [] [],
     .mk "flex2" (none, none) "horiz" 0 0 [] []] []

/-- Horizontal container with children whose height specs are `0%`, `0`
and absent. -/
def c10tree : LayoutNode :=
  .mk "container" (some (.pix 200), some (.pix 100)) "horiz" 0 0
    [.mk "a" (some (.pix 40), some (.pct 0)) "horiz" 0 0 [] [],
     .mk "b" (some (.pix 50), some (.pix 0)) "horiz" 0 0 [] [],
     .mk "c" (none, none) "horiz" 0 0 [] []] []

/-- Vertical container with children whose width specs are `0%`, `0` and
absent. -/
def c10vtree : LayoutNode :=
  .mk "vcontainer" (some (.pix 100), some (.pix 200)) "vert" 0 0
    [.mk "va" (some (.pct 0), some (.pix 40)) "horiz" 0 0 [] [],
     .mk "vb" (some (.pix 0), some (.pix 50)) "horiz" 0 0 [] [],
     .mk "vc" (none, none) "horiz" 0 0 [] []] []

/-! Helper lemmas. -/

@[simp] theorem LayoutNode.name_mk (nm : String) (sz : Option SizeVal × Option SizeVal)
    (ly : String) (b g : Int) (cs : List LayoutNode) (attrs : List (String × String)) :
    (LayoutNode.mk nm sz ly b g cs attrs).name = nm := rfl

@[simp] theorem LayoutNode.size_mk (nm : String) (sz : Option SizeVal × Option SizeVal)
    (ly : String) (b g : Int) (cs : List LayoutNode) (attrs : List (String × String)) :
    (LayoutNode.mk nm sz ly b g cs attrs).size = sz := rfl

@[simp] theorem LayoutNode.layout_mk (nm : String) (sz : Option SizeVal × Option SizeVal)
    (ly : String) (b g : Int) (cs : List LayoutNode) (attrs : List (String × String)) :
    (LayoutNode.mk nm sz ly b g cs attrs).layout = ly := rfl

@[simp] theorem LayoutNode.border_mk (nm : String) (sz : Option SizeVal × Option SizeVal)
    (ly : String) (b g : Int) (cs : List LayoutNode) (attrs : List (String × String)) :
    (LayoutNode.mk nm sz ly b g cs attrs).border = b := rfl

@[simp] theorem LayoutNode.gap_mk (nm : String) (sz : Option SizeVal × Option SizeVal)
    (ly : String) (b g : Int) (cs : List LayoutNode) (attrs : List (String × String)) :
    (LayoutNode.mk nm sz ly b g cs attrs).gap = g := rfl

@[simp] theorem LayoutNode.children_mk (nm : String) (sz : Option SizeVal × Option SizeVal)
    (ly : String) (b g : Int) (cs : List LayoutNode) (attrs : List (String × String)) :
    (LayoutNode.mk nm sz ly b g cs attrs).children = cs := rfl

@[simp] theorem LayoutNode.attributes_mk (nm : String) (sz : Option SizeVal × Option SizeVal)
    (ly : String) (b g : Int) (cs : List LayoutNode) (attrs : List (String × String)) :
    (LayoutNode.mk nm sz ly b g cs attrs).attributes = attrs := rfl

theorem countNodes_pos (n : LayoutNode) : 0 < countNodes n := by
  cases n with
  | mk nm sz ly b g cs attrs => simp [countNodes]

theorem countNodes_le_list {c : LayoutNode} :
    ∀ {cs : List LayoutNode}, c ∈ cs → countNodes c ≤ countNodesList cs := by
  intro cs h
  induction cs with
  | nil => cases h
  | cons a rest ih =>
    rcases List.mem_cons.mp h with rfl | hmem
    · simp [countNodesList]
    · have := ih hmem
      simp only [countNodesList]
      omega

/-- Structural induction over a layout tree through its children list. -/
theorem LayoutNode.inductionOn {P : LayoutNode → Prop}
    (step : ∀ n : LayoutNode, (∀ c ∈ n.children, P c) → P n) (n : LayoutNode) : P n := by
  have key : ∀ (k : Nat) (m : LayoutNode), countNodes m ≤ k → P m := by
    intro k
    induction k with
    | zero =>
      intro m h
      exact absurd h (by have := countNodes_pos m; omega)
    | succ k ih =>
      intro m h
      refine step m (fun c hc => ih c ?_)
      have h1 : countNodes c ≤ countNodesList m.children := countNodes_le_list hc
      have h2 : countNodes m = 1 + countNodesList m.children := by cases m; rfl
      omega
  exact key (countNodes n) n le_rfl

/-! Claim C1. -/

/-- Claim C1, counterexample: on a malformed percentage prefix (`"abc%"`)
and on a malformed pixel token (`"wide"`), `_parse_dimension` raises
`ValueError` (here `Except.error ()`), instead of returning the
"unspecified" result `None` the claim promises. -/
theorem C1_counterexample :
    parse_dimension (some "abc%") 100 = .error () ∧
    parse_dimension (some "wide") 100 = .error () ∧
    (Except.error () : Except Unit (Option Int)) ≠ .ok none :=
  ⟨rfl, rfl, fun h => Except.noConfusion h⟩

/-- Claim C1, amended: an absent or empty size spec resolves to
"unspecified" (`ok none`), but a spec whose numeric part is malformed — a
non-numeric percentage prefix such as `"abc%"` or a non-numeric pixel token
such as `"wide"` — makes the resolver raise `ValueError` rather than degrade
to unspecified. -/
theorem C1_malformed_numeric_part_raises : ∀ containerSize : Int,
    parse_dimension none containerSize = .ok none ∧
    parse_dimension (some "") containerSize = .ok none ∧
    parse_dimension (some "abc%") containerSize = .error () ∧
    parse_dimension (some "wide") containerSize = .error () :=
  fun _ => ⟨rfl, rfl, rfl, rfl⟩

/-! Claim C5. -/

/-- Characterisation of the loop of the "horiz" branch of
`_requires_minimum_height`: it returns `true` exactly when no child of the
list is flexible in height. -/
theorem noFlexibleChild_iff (cs : List LayoutNode) :
    noFlexibleChild cs = true ↔
      ∀ c ∈ cs, ¬(c.size.2 = none ∧ requires_minimum_height c = false) := by
  induction cs with
  | nil => simp [noFlexibleChild]
  | cons c rest ih =>
    by_cases h : c.size.2 = none ∧ requires_minimum_height c = false
    · have hb : (c.size.2.isNone && !(requires_minimum_height c)) = true := by
        simp [Option.isNone_iff_eq_none, h.1, h.2]
      rw [noFlexibleChild, if_pos hb]
      constructor
      · intro hf; exact absurd hf (by simp)
      · intro hall; exact absurd h (hall c (List.mem_cons_self c rest))
    · have hb : ¬((c.size.2.isNone && !(requires_minimum_height c)) = true) := by
        simpa [Option.isNone_iff_eq_none, Bool.and_eq_true, Bool.not_eq_true'] using h
      rw [noFlexibleChild, if_neg hb, ih]
      constructor
      · intro hall d hd
        rcases List.mem_cons.mp hd with rfl | hmem
        · exact h
        · exact hall d hmem
      · intro hall d hd
        exact hall d (List.mem_cons_of_mem _ hd)

/-- Claim C5, counterexample: a Horizontal node with one fixed-height child
(`"f"`, height 10) and one flexible sibling does NOT require a minimum
height — `_requires_minimum_height` returns `False` as soon as any single
child is flexible, so one fixed-height child among flexible siblings is not
enough. -/
theorem C5_counterexample :
    cexC5.layout = "horiz" ∧
    cexC5.children.map (fun c => c.size.2) = [some (.pix 10), none] ∧
    requires_minimum_height cexC5 = false :=
  ⟨rfl, rfl, rfl⟩

/-- Claim C5, amended: a node with direction Horizontal and at least one
child requires a minimum height iff NO child is flexible in height (every
child has a resolvable height spec or itself requires a minimum); a single
flexible child makes the node flexible, exactly as on the principal axis —
the source applies the same contagion rule on the cross axis. -/
theorem C5_requires_min_height_horiz (n : LayoutNode)
    (hl : n.layout = "horiz") (hne : n.children ≠ []) :
    requires_minimum_height n = true ↔
      ∀ c ∈ n.children, ¬(c.size.2 = none ∧ requires_minimum_height c = false) := by
  cases n with
  | mk nm sz ly b g cs attrs =>
    simp only [LayoutNode.layout_mk] at hl
    simp only [LayoutNode.children_mk] at hne ⊢
    subst hl
    rw [requires_minimum_height, if_neg (by simp [List.isEmpty_iff, hne]), if_pos rfl]
    exact noFlexibleChild_iff cs

/-- Claim C5, witness: the amended rule evaluated on the "pane" of the
repository's test suite (single fixed-height child, so the minimum is
required). -/
theorem C5_requires_min_height_horiz_witness :
    requires_minimum_height paneC5 = true :=
  (C5_requires_min_height_horiz paneC5 rfl (by exact List.cons_ne_nil _ _)).mpr
    (by
      intro c hc
      simp only [paneC5, LayoutNode.children_mk, List.mem_singleton] at hc
      subst hc
      rintro ⟨h1, _⟩
      simp at h1)

/-! Claim C6. -/

/-- Claim C6, counterexample: a leaf with unspecified size on both axes and
border 5 has computed minimum height `border * 2 = 10`, not the zero the
claim states. -/
theorem C6_counterexample :
    cexC6.children = [] ∧ cexC6.size = (none, none) ∧ cexC6.border = 5 ∧
    calculate_min_height cexC6 = 10 ∧ (10 : Int) ≠ 0 :=
  ⟨rfl, rfl, rfl, rfl, by decide⟩

/-- Claim C6, amended: the computed minimum height of a leaf node is
`border * 2` whatever its size specs — zero exactly for a zero border. -/
theorem C6_leaf_min_height (n : LayoutNode) (h : n.children = []) :
    calculate_min_height n = n.border * 2 := by
  cases n with
  | mk nm sz ly b g cs attrs =>
    simp only [LayoutNode.children_mk] at h
    subst h
    rfl

/-- Claim C6, witness: the amended rule evaluated on the border-5 leaf. -/
theorem C6_leaf_min_height_witness : calculate_min_height cexC6 = cexC6.border * 2 :=
  C6_leaf_min_height cexC6 rfl

/-! Claim C10. -/

/-- Claim C10: a height spec resolving to `0` (pixel token `0` or
percentage `0%`) is falsy in the Python `or` of the cross-axis resolution,
so the child receives the full content height exactly as if the spec were
absent; symmetrically for width specs resolving to `0` in a Vertical
container.  The two concrete layouts show the three cases (`0%`, `0`,
absent) side by side through the full pipeline. -/
theorem C10_zero_spec_fills_cross_axis :
    (∀ (c : LayoutNode) (ch : Int),
      c.size.2 = some (.pix 0) ∨ c.size.2 = some (.pct 0) ∨ c.size.2 = none →
      resolveChildHeightH c ch = ch) ∧
    (∀ (c : LayoutNode) (cw : Int),
      c.size.1 = some (.pix 0) ∨ c.size.1 = some (.pct 0) ∨ c.size.1 = none →
      resolveChildWidthV c cw = cw) ∧
    layout_tree_to_rectangles c10tree (200, 100) =
      [⟨"container", 0, 0, 200, 100⟩, ⟨"a", 0, 0, 40, 100⟩,
       ⟨"b", 40, 0, 50, 100⟩, ⟨"c", 90, 0, 110, 100⟩] ∧
    layout_tree_to_rectangles c10vtree (100, 200) =
      [⟨"vcontainer", 0, 0, 100, 200⟩, ⟨"va", 0, 0, 100, 40⟩,
       ⟨"vb", 0, 40, 100, 50⟩, ⟨"vc", 0, 90, 100, 110⟩] := by
  refine ⟨?_, ?_, by decide, by decide⟩
  · intro c ch h
    rcases h with h | h | h <;>
      simp [resolveChildHeightH, parse_dim, pyOr, h, pctDim]
  · intro c cw h
    rcases h with h | h | h <;>
      simp [resolveChildWidthV, parse_dim, pyOr, h, pctDim]

/-- Claim C10, witness: the zero-height and zero-width cases evaluated at
concrete children and container extents. -/
theorem C10_zero_spec_fills_cross_axis_witness :
    resolveChildHeightH (.mk "b" (some (.pix 50), some (.pix 0)) "horiz" 0 0 [] []) 100 = 100 ∧
    resolveChildWidthV (.mk "vb" (some (.pix 0), some (.pix 50)) "horiz" 0 0 [] []) 77 = 77 :=
  ⟨C10_zero_spec_fills_cross_axis.1 _ 100 (Or.inl rfl),
   C10_zero_spec_fills_cross_axis.2.1 _ 77 (Or.inl rfl)⟩

/-! Claim C8. -/

/-- Claim C8: in the 600-wide container with one fixed child of 100 pixels
and two unspecified children, each flexible child is allotted exactly
`(600 - 100) / 2 = 250` pixels; in general the flexible share is the floor
division of the remaining width by the flexible count, so the total
allotted width never exceeds the remaining width, and at viewport 601 the
remainder of the division is dropped: the children's widths sum to 600,
strictly less than the content width 601. -/
theorem C8_flexible_distribution :
    layout_tree_to_rectangles c8tree (600, 100) =
      [⟨"container", 0, 0, 600, 100⟩, ⟨"fixed", 0, 0, 100, 50⟩,
       ⟨"flex1", 100, 0, 250, 100⟩, ⟨"flex2", 350, 0, 250, 100⟩] ∧
    (∀ (gap : Int) (children : List LayoutNode) (cw : Int),
      0 < (fixedFlexH children cw).2 →
      flexWidthH gap children cw =
        Int.fdiv (cw - (fixedFlexH children cw).1 - totalGap gap children)
          (fixedFlexH children cw).2) ∧
    (∀ (gap : Int) (children : List LayoutNode) (cw : Int),
      0 < (fixedFlexH children cw).2 →
      (fixedFlexH children cw).2 * flexWidthH gap children cw ≤
        cw - (fixedFlexH children cw).1 - totalGap gap children) ∧
    layout_tree_to_rectangles c8tree (601, 100) =
      [⟨"container", 0, 0, 601, 100⟩, ⟨"fixed", 0, 0, 100, 50⟩,
       ⟨"flex1", 100, 0, 250, 100⟩, ⟨"flex2", 350, 0, 250, 100⟩] ∧
    (100 + 250 + 250 : Int) = 600 ∧ (600 : Int) < 601 := by
  refine ⟨by decide, ?_, ?_, by decide, by decide, by decide⟩
  · intro gap children cw h
    simp only [flexWidthH]
    rw [if_pos h]
  · intro gap children cw h
    simp only [flexWidthH]
    rw [if_pos h, Int.fdiv_eq_ediv _ (le_of_lt h), Int.mul_comm]
    exact Int.ediv_mul_le _ (ne_of_gt h)

/-- Claim C8, witness: the general floor-division facts evaluated on the
600-wide example's child list. -/
theorem C8_flexible_distribution_witness :
    flexWidthH 0 c8tree.children 600 =
      Int.fdiv (600 - (fixedFlexH c8tree.children 600).1 - totalGap 0 c8tree.children)
        (fixedFlexH c8tree.children 600).2 ∧
    (fixedFlexH c8tree.children 600).2 * flexWidthH 0 c8tree.children 600 ≤
      600 - (fixedFlexH c8tree.children 600).1 - totalGap 0 c8tree.children :=
  ⟨C8_flexible_distribution.2.1 0 _ 600 (by decide),
   C8_flexible_distribution.2.2.1 0 _ 600 (by decide)⟩

/-! Claim C4. -/

/-- Claim C4, counterexample: the child `"a"` of `cexC4` requires a minimum
width of 60 according to the (spec-modelled) width-axis Minimum-Size
Estimator, yet in the 100-wide horizontal container it is allotted the
flexible share `(100 - 0) // 2 = 50`, not its minimum, and it is counted in
the flexible divisor (both unspecified children receive 50). -/
theorem C4_counterexample :
    requires_minimum_width cexC4A = true ∧
    calculate_min_width cexC4A = 60 ∧
    layout_tree_to_rectangles cexC4 (100, 50) =
      [⟨"r", 0, 0, 100, 50⟩, ⟨"a", 0, 0, 50, 50⟩,
       ⟨"al", 0, 0, 60, 50⟩, ⟨"b", 50, 0, 50, 50⟩] ∧
    (50 : Int) ≠ 60 :=
  ⟨rfl, rfl, by decide, by decide⟩

/-- Claim C4, amended: horizontal width distribution applies no
minimum-size exclusion at all (the source implements the exclusion only for
heights in Vertical containers) — every child whose width spec does not
resolve is counted in the flexible divisor, and its allotted width is the
flexible share, never its minimum width. -/
theorem C4_horizontal_has_no_min_exclusion :
    (∀ (children : List LayoutNode) (cw : Int),
      (fixedFlexH children cw).2 =
        (children.countP (fun c => (parse_dim c.size.1 cw).isNone) : Int)) ∧
    (∀ (c : LayoutNode) (cw fw : Int),
      parse_dim c.size.1 cw = none → resolveChildWidthH c cw fw = fw) := by
  constructor
  · intro children cw
    induction children with
    | nil => simp [fixedFlexH]
    | cons c rest ih =>
      rw [fixedFlexH]
      cases hp : parse_dim c.size.1 cw
      · simp [hp, List.countP_cons, ih]
      · simp [hp, List.countP_cons, ih]
  · intro c cw fw h
    simp [resolveChildWidthH, h]

/-- Claim C4, witness: the no-exclusion rule evaluated on the container of
the counterexample — the minimum-requiring child still resolves to the
flexible share. -/
theorem C4_horizontal_has_no_min_exclusion_witness :
    resolveChildWidthH cexC4A 100 50 = 50 :=
  C4_horizontal_has_no_min_exclusion.2 cexC4A 100 50 rfl

/-! Claim C9. -/

theorem placeHS_fst (gap cy cw ch fw : Int) :
    ∀ (cs : List LayoutNode) (curX : Int),
      (∀ c ∈ cs, ∀ x y w h : Int, (layout_node_recursiveS c x y w h).1 = c) →
      (placeHS gap cy cw ch fw cs curX).1 = cs := by
  intro cs
  induction cs with
  | nil => intro curX _; rfl
  | cons c rest ih =>
    intro curX hm
    rw [placeHS]
    simp only []
    rw [hm c (List.mem_cons_self _ _), ih _ (fun d hd => hm d (List.mem_cons_of_mem _ hd))]

theorem placeVS_fst (gap cx cw ch fe : Int) :
    ∀ (cs : List LayoutNode) (curY : Int),
      (∀ c ∈ cs, ∀ x y w h : Int, (layout_node_recursiveS c x y w h).1 = c) →
      (placeVS gap cx cw ch fe cs curY).1 = cs := by
  intro cs
  induction cs with
  | nil => intro curY _; rfl
  | cons c rest ih =>
    intro curY hm
    rw [placeVS]
    simp only []
    rw [hm c (List.mem_cons_self _ _), ih _ (fun d hd => hm d (List.mem_cons_of_mem _ hd))]

/-- The state-threaded pass returns the tree it was given: the source never
writes to any node field. -/
theorem layout_node_recursiveS_fst (n : LayoutNode) :
    ∀ x y w h : Int, (layout_node_recursiveS n x y w h).1 = n := by
  induction n using LayoutNode.inductionOn with
  | step n ih =>
    cases n with
    | mk nm sz ly b g cs attrs =>
      simp only [LayoutNode.children_mk] at ih
      intro x y w h
      rw [layout_node_recursiveS]
      dsimp only
      split_ifs
      · rfl
      · rfl
      · show LayoutNode.mk nm sz ly b g
            (placeVS g (x + b) (w - 2 * b) (h - 2 * b)
              (flexExtraV g cs (h - 2 * b)) cs (y + b)).1 attrs =
          LayoutNode.mk nm sz ly b g cs attrs
        rw [placeVS_fst g (x + b) (w - 2 * b) (h - 2 * b)
          (flexExtraV g cs (h - 2 * b)) cs (y + b) (fun c hc => ih c hc)]
      · show LayoutNode.mk nm sz ly b g
            (placeHS g (y + b) (w - 2 * b) (h - 2 * b)
              (flexWidthH g cs (w - 2 * b)) cs (x + b)).1 attrs =
          LayoutNode.mk nm sz ly b g cs attrs
        rw [placeHS_fst g (y + b) (w - 2 * b) (h - 2 * b)
          (flexWidthH g cs (w - 2 * b)) cs (x + b) (fun c hc => ih c hc)]

theorem placeHS_snd (gap cy cw ch fw : Int) :
    ∀ (cs : List LayoutNode) (curX : Int),
      (∀ c ∈ cs, ∀ x y w h : Int,
        (layout_node_recursiveS c x y w h).2 = layout_node_recursive c x y w h) →
      (placeHS gap cy cw ch fw cs curX).2 = placeH gap cy cw ch fw cs curX := by
  intro cs
  induction cs with
  | nil => intro curX _; rfl
  | cons c rest ih =>
    intro curX hm
    rw [placeHS, placeH]
    simp only []
    rw [hm c (List.mem_cons_self _ _), ih _ (fun d hd => hm d (List.mem_cons_of_mem _ hd))]

theorem placeVS_snd (gap cx cw ch fe : Int) :
    ∀ (cs : List LayoutNode) (curY : Int),
      (∀ c ∈ cs, ∀ x y w h : Int,
        (layout_node_recursiveS c x y w h).2 = layout_node_recursive c x y w h) →
      (placeVS gap cx cw ch fe cs curY).2 = placeV gap cx cw ch fe cs curY := by
  intro cs
  induction cs with
  | nil => intro curY _; rfl
  | cons c rest ih =>
    intro curY hm
    rw [placeVS, placeV]
    simp only []
    rw [hm c (List.mem_cons_self _ _), ih _ (fun d hd => hm d (List.mem_cons_of_mem _ hd))]

/-- The rectangles of the state-threaded pass are those of the pure pass. -/
theorem layout_node_recursiveS_snd (n : LayoutNode) :
    ∀ x y w h : Int,
      (layout_node_recursiveS n x y w h).2 = layout_node_recursive n x y w h := by
  induction n using LayoutNode.inductionOn with
  | step n ih =>
    cases n with
    | mk nm sz ly b g cs attrs =>
      simp only [LayoutNode.children_mk] at ih
      intro x y w h
      rw [layout_node_recursiveS, layout_node_recursive]
      dsimp only
      split_ifs
      · rfl
      · rfl
      · show (⟨nm, x, y, w, h⟩ : Rectangle) ::
            (placeVS g (x + b) (w - 2 * b) (h - 2 * b)
              (flexExtraV g cs (h - 2 * b)) cs (y + b)).2 =
          (⟨nm, x, y, w, h⟩ : Rectangle) ::
            placeV g (x + b) (w - 2 * b) (h - 2 * b)
              (flexExtraV g cs (h - 2 * b)) cs (y + b)
        rw [placeVS_snd g (x + b) (w - 2 * b) (h - 2 * b)
          (flexExtraV g cs (h - 2 * b)) cs (y + b) (fun c hc => ih c hc)]
      · show (⟨nm, x, y, w, h⟩ : Rectangle) ::
            (placeHS g (y + b) (w - 2 * b) (h - 2 * b)
              (flexWidthH g cs (w - 2 * b)) cs (x + b)).2 =
          (⟨nm, x, y, w, h⟩ : Rectangle) ::
            placeH g (y + b) (w - 2 * b) (h - 2 * b)
              (flexWidthH g cs (w - 2 * b)) cs (x + b)
        rw [placeHS_snd g (y + b) (w - 2 * b) (h - 2 * b)
          (flexWidthH g cs (w - 2 * b)) cs (x + b) (fun c hc => ih c hc)]

/-- Claim C9: `layout()` never mutates the tree (the pass returns the tree
unchanged), so two successive calls with identical arguments see the same
tree and return identical rectangle lists, and the state-threaded pass
computes exactly the pure `layout()` result. -/
theorem C9_layout_pure_and_idempotent :
    ∀ (root : LayoutNode) (width height : Option Int),
      (Layout.layoutS root width height).1 = root ∧
      (Layout.layoutS (Layout.layoutS root width height).1 width height).2 =
        (Layout.layoutS root width height).2 ∧
      (Layout.layoutS root width height).2 = Layout.layout root width height := by
  intro root w h
  have h1 : (Layout.layoutS root w h).1 = root := by
    simp only [Layout.layoutS]
    exact layout_node_recursiveS_fst root 0 0 _ _
  refine ⟨h1, by rw [h1], ?_⟩
  simp only [Layout.layoutS, Layout.layout, layout_tree_to_rectangles]
  exact layout_node_recursiveS_snd root 0 0 _ _

/-! Claim C2. -/

theorem wfChildren_iff (cs : List LayoutNode) :
    wfChildren cs = true ↔ ∀ c ∈ cs, wfNode c = true := by
  induction cs with
  | nil => simp [wfChildren]
  | cons c rest ih =>
    rw [wfChildren]
    simp [Bool.and_eq_true, ih]

theorem wfNode_parts {nm : String} {sz : Option SizeVal × Option SizeVal} {ly : String}
    {b g : Int} {cs : List LayoutNode} {attrs : List (String × String)}
    (h : wfNode (.mk nm sz ly b g cs attrs) = true) :
    0 ≤ b ∧ 0 ≤ g ∧ wfSpec sz.1 = true ∧ wfSpec sz.2 = true ∧
      ∀ c ∈ cs, wfNode c = true := by
  rw [wfNode] at h
  simp only [Bool.and_eq_true, decide_eq_true_eq, wfChildren_iff] at h
  tauto

theorem wfNode_wfSpec1 {c : LayoutNode} (h : wfNode c = true) : wfSpec c.size.1 = true := by
  cases c with
  | mk nm sz ly b g cs attrs => exact (wfNode_parts h).2.2.1

theorem wfNode_wfSpec2 {c : LayoutNode} (h : wfNode c = true) : wfSpec c.size.2 = true := by
  cases c with
  | mk nm sz ly b g cs attrs => exact (wfNode_parts h).2.2.2.1

theorem parse_dim_nonneg {s : Option SizeVal} {csize v : Int}
    (hwf : wfSpec s = true) (hcs : 0 ≤ csize) (h : parse_dim s csize = some v) :
    0 ≤ v := by
  cases s with
  | none => exact absurd h (by simp [parse_dim])
  | some sv =>
    cases sv with
    | pix n =>
      simp only [parse_dim, Option.some.injEq] at h
      subst h
      simpa [wfSpec] using hwf
    | pct q =>
      simp only [parse_dim, Option.some.injEq] at h
      subst h
      have hq : (0 : Rat) ≤ q := by simpa [wfSpec] using hwf
      have hnum : 0 ≤ q.num := Rat.num_nonneg.mpr hq
      refine Int.tdiv_nonneg (mul_nonneg hcs hnum) (mul_nonneg ?_ (by omega))
      exact_mod_cast Nat.zero_le q.den

theorem maxChildMinHeights_nonneg : ∀ cs : List LayoutNode, 0 ≤ maxChildMinHeights cs := by
  intro cs
  induction cs with
  | nil => simp [maxChildMinHeights]
  | cons c rest ih =>
    rw [maxChildMinHeights]
    exact le_trans ih (le_max_right _ _)

theorem sumChildMinHeights_nonneg :
    ∀ cs : List LayoutNode, (∀ c ∈ cs, wfNode c = true) →
      (∀ c ∈ cs, 0 ≤ calculate_min_height c) → 0 ≤ sumChildMinHeights cs := by
  intro cs hwf hmin
  induction cs with
  | nil => simp [sumChildMinHeights]
  | cons c rest ih =>
    rw [sumChildMinHeights]
    have hterm : 0 ≤ (match parse_dim c.size.2 1000 with
        | some hh => hh
        | none => calculate_min_height c) := by
      cases hp : parse_dim c.size.2 1000 with
      | none => exact hmin c (List.mem_cons_self _ _)
      | some v =>
        exact parse_dim_nonneg (wfNode_wfSpec2 (hwf c (List.mem_cons_self _ _)))
          (by omega) hp
    have hrest := ih (fun d hd => hwf d (List.mem_cons_of_mem _ hd))
      (fun d hd => hmin d (List.mem_cons_of_mem _ hd))
    omega

theorem calculate_min_height_nonneg (n : LayoutNode) :
    wfNode n = true → 0 ≤ calculate_min_height n := by
  induction n using LayoutNode.inductionOn with
  | step n ih =>
    cases n with
    | mk nm sz ly b g cs attrs =>
      intro hwf
      obtain ⟨hb, hg, _, _, hcs⟩ := wfNode_parts hwf
      simp only [LayoutNode.children_mk] at ih
      rw [calculate_min_height]
      split_ifs
      · omega
      · have hsum := sumChildMinHeights_nonneg cs hcs (fun c hc => ih c hc (hcs c hc))
        have hgap : (0 : Int) ≤ g * ((cs.length - 1 : Nat) : Int) :=
          mul_nonneg hg (by exact_mod_cast Nat.zero_le _)
        omega
      · have hsum := sumChildMinHeights_nonneg cs hcs (fun c hc => ih c hc (hcs c hc))
        omega
      · have := maxChildMinHeights_nonneg cs
        omega

theorem flexExtraV_nonneg (gap : Int) (cs : List LayoutNode) (ch : Int) :
    0 ≤ flexExtraV gap cs ch := by
  rw [flexExtraV]
  split_ifs with h
  · exact Int.fdiv_nonneg (le_of_lt h.2) (le_of_lt h.1)
  · omega

theorem resolveChildHeightH_nonneg {c : LayoutNode} {ch : Int}
    (hwf : wfNode c = true) (hch : 0 < ch) : 0 ≤ resolveChildHeightH c ch := by
  rw [resolveChildHeightH]
  cases hp : parse_dim c.size.2 ch with
  | none => simp [pyOr]; omega
  | some v =>
    have hv := parse_dim_nonneg (wfNode_wfSpec2 hwf) (le_of_lt hch) hp
    simp only [pyOr]
    split_ifs <;> omega

theorem resolveChildWidthV_nonneg {c : LayoutNode} {cw : Int}
    (hwf : wfNode c = true) (hcw : 0 < cw) : 0 ≤ resolveChildWidthV c cw := by
  rw [resolveChildWidthV]
  cases hp : parse_dim c.size.1 cw with
  | none => simp [pyOr]; omega
  | some v =>
    have hv := parse_dim_nonneg (wfNode_wfSpec1 hwf) (le_of_lt hcw) hp
    simp only [pyOr]
    split_ifs <;> omega

theorem resolveChildHeightV_nonneg {c : LayoutNode} {ch fe : Int}
    (hwf : wfNode c = true) (hch : 0 ≤ ch) (hfe : 0 ≤ fe) :
    0 ≤ resolveChildHeightV c ch fe := by
  rw [resolveChildHeightV]
  cases hp : parse_dim c.size.2 ch with
  | none =>
    split_ifs
    · exact calculate_min_height_nonneg c hwf
    · exact hfe
  | some v => exact parse_dim_nonneg (wfNode_wfSpec2 hwf) hch hp

theorem mem_placeH {gap cy cw ch fw : Int} :
    ∀ {cs : List LayoutNode} {curX : Int} {r : Rectangle},
      r ∈ placeH gap cy cw ch fw cs curX →
      ∃ c ∈ cs, ∃ x, r ∈ layout_node_recursive c x cy
        (resolveChildWidthH c cw fw) (resolveChildHeightH c ch) := by
  intro cs
  induction cs with
  | nil => intro curX r hr; rw [placeH] at hr; cases hr
  | cons c rest ih =>
    intro curX r hr
    rw [placeH] at hr
    rcases List.mem_append.mp hr with hl | hrt
    · exact ⟨c, List.mem_cons_self _ _, curX, hl⟩
    · obtain ⟨d, hd, x, hx⟩ := ih hrt
      exact ⟨d, List.mem_cons_of_mem _ hd, x, hx⟩

theorem mem_placeV {gap cx cw ch fe : Int} :
    ∀ {cs : List LayoutNode} {curY : Int} {r : Rectangle},
      r ∈ placeV gap cx cw ch fe cs curY →
      ∃ c ∈ cs, ∃ y, r ∈ layout_node_recursive c cx y
        (resolveChildWidthV c cw) (resolveChildHeightV c ch fe) := by
  intro cs
  induction cs with
  | nil => intro curY r hr; rw [placeV] at hr; cases hr
  | cons c rest ih =>
    intro curY r hr
    rw [placeV] at hr
    rcases List.mem_append.mp hr with hl | hrt
    · exact ⟨c, List.mem_cons_self _ _, curY, hl⟩
    · obtain ⟨d, hd, y, hy⟩ := ih hrt
      exact ⟨d, List.mem_cons_of_mem _ hd, y, hy⟩

/-- Every rectangle of the pass has non-negative height, for a tree
respecting the data model and a non-negative assigned height. -/
theorem layout_heights_nonneg (n : LayoutNode) :
    wfNode n = true → ∀ x y w h : Int, 0 ≤ h →
      ∀ r ∈ layout_node_recursive n x y w h, 0 ≤ r.height := by
  induction n using LayoutNode.inductionOn with
  | step n ih =>
    cases n with
    | mk nm sz ly b g cs attrs =>
      intro hwf x y w h hh r hr
      obtain ⟨hb, hg, _, _, hcs⟩ := wfNode_parts hwf
      simp only [LayoutNode.children_mk] at ih
      rw [layout_node_recursive] at hr
      dsimp only at hr
      split_ifs at hr with h1 h2 h3
      · rcases List.mem_singleton.mp hr with rfl
        exact hh
      · rcases List.mem_singleton.mp hr with rfl
        exact hh
      · push_neg at h2
        rcases List.mem_cons.mp hr with rfl | hr2
        · exact hh
        · obtain ⟨c, hc, y1, hy1⟩ := mem_placeV hr2
          exact ih c hc (hcs c hc) _ _ _ _
            (resolveChildHeightV_nonneg (hcs c hc) (le_of_lt h2.2)
              (flexExtraV_nonneg g cs (h - 2 * b))) r hy1
      · push_neg at h2
        rcases List.mem_cons.mp hr with rfl | hr2
        · exact hh
        · obtain ⟨c, hc, x1, hx1⟩ := mem_placeH hr2
          exact ih c hc (hcs c hc) _ _ _ _
            (resolveChildHeightH_nonneg (hcs c hc) h2.2) r hx1

/-- Claim C2, counterexample: in the well-formed tree `cexC2` (all specs,
borders and gaps non-negative), the flexible child `"b"` of the Horizontal
container is assigned width `(100 - 200) // 1 = -100`: the produced list
contains a Rectangle of negative width. -/
theorem C2_counterexample :
    wfNode cexC2 = true ∧
    (layout_tree_to_rectangles cexC2 (100, 50)).get? 2 =
      some ⟨"b", 200, 0, -100, 50⟩ ∧
    (-100 : Int) < 0 :=
  ⟨rfl, by decide, by decide⟩

/-- Claim C2, amended: for a tree respecting the data model (non-negative
specs, borders and gaps) and a non-negative viewport height, every produced
Rectangle has height ≥ 0; the width half of the claim is false — a flexible
child of a Horizontal container is assigned the floor share even when the
fixed children's widths plus gaps exceed the content width, producing a
negative width. -/
theorem C2_heights_nonneg :
    ∀ (root : LayoutNode) (w h : Int), wfNode root = true → 0 ≤ h →
      ∀ r ∈ layout_tree_to_rectangles root (w, h), 0 ≤ r.height := by
  intro root w h hwf hh r hr
  exact layout_heights_nonneg root hwf 0 0 w h hh r hr

/-- Claim C2, witness: the non-negative-height half evaluated on the
counterexample tree — even the negative-width rectangle keeps height 50. -/
theorem C2_heights_nonneg_witness :
    0 ≤ (Rectangle.mk "b" 200 0 (-100) 50).height :=
  C2_heights_nonneg cexC2 100 50 rfl (by decide) _ (by decide)

/-! Claim C7. -/

theorem preorderNamesList_length :
    ∀ cs : List LayoutNode,
      (∀ c ∈ cs, (preorderNames c).length = countNodes c) →
      (preorderNamesList cs).length = countNodesList cs := by
  intro cs h
  induction cs with
  | nil => rfl
  | cons c rest ih =>
    rw [preorderNamesList, countNodesList, List.length_append,
      h c (List.mem_cons_self _ _), ih (fun d hd => h d (List.mem_cons_of_mem _ hd))]

/-- The pre-order name list has exactly one entry per node of the tree. -/
theorem preorderNames_length (n : LayoutNode) :
    (preorderNames n).length = countNodes n := by
  induction n using LayoutNode.inductionOn with
  | step n ih =>
    cases n with
    | mk nm sz ly b g cs attrs =>
      simp only [LayoutNode.children_mk] at ih
      rw [preorderNames, countNodes, List.length_cons,
        preorderNamesList_length cs ih]
      omega

/-- The pass always emits the node's own rectangle first. -/
theorem layout_head (n : LayoutNode) (x y w h : Int) :
    (layout_node_recursive n x y w h).head? = some ⟨n.name, x, y, w, h⟩ := by
  cases n with
  | mk nm sz ly b g cs attrs =>
    rw [layout_node_recursive]
    dsimp only
    split_ifs <;> rfl

theorem placeH_names_sublist {gap cy cw ch fw : Int} :
    ∀ (cs : List LayoutNode) (curX : Int),
      (∀ c ∈ cs, ∀ x y w h : Int,
        List.Sublist ((layout_node_recursive c x y w h).map Rectangle.name) (preorderNames c)) →
      List.Sublist ((placeH gap cy cw ch fw cs curX).map Rectangle.name) (preorderNamesList cs) := by
  intro cs
  induction cs with
  | nil => intro curX _; simp [placeH, preorderNamesList]
  | cons c rest ih =>
    intro curX hm
    rw [placeH, preorderNamesList]
    rw [List.map_append]
    exact List.Sublist.append (hm c (List.mem_cons_self _ _) _ _ _ _)
      (ih _ (fun d hd => hm d (List.mem_cons_of_mem _ hd)))

theorem placeV_names_sublist {gap cx cw ch fe : Int} :
    ∀ (cs : List LayoutNode) (curY : Int),
      (∀ c ∈ cs, ∀ x y w h : Int,
        List.Sublist ((layout_node_recursive c x y w h).map Rectangle.name) (preorderNames c)) →
      List.Sublist ((placeV gap cx cw ch fe cs curY).map Rectangle.name) (preorderNamesList cs) := by
  intro cs
  induction cs with
  | nil => intro curY _; simp [placeV, preorderNamesList]
  | cons c rest ih =>
    intro curY hm
    rw [placeV, preorderNamesList]
    rw [List.map_append]
    exact List.Sublist.append (hm c (List.mem_cons_self _ _) _ _ _ _)
      (ih _ (fun d hd => hm d (List.mem_cons_of_mem _ hd)))

/-- The emitted names always form a sub-sequence of the pre-order name
list of the tree. -/
theorem layout_names_sublist (n : LayoutNode) :
    ∀ x y w h : Int,
      List.Sublist ((layout_node_recursive n x y w h).map Rectangle.name) (preorderNames n) := by
  induction n using LayoutNode.inductionOn with
  | step n ih =>
    cases n with
    | mk nm sz ly b g cs attrs =>
      simp only [LayoutNode.children_mk] at ih
      intro x y w h
      rw [layout_node_recursive, preorderNames]
      dsimp only
      split_ifs
      · exact List.Sublist.cons₂ _ (List.nil_sublist _)
      · exact List.Sublist.cons₂ _ (List.nil_sublist _)
      · rw [List.map_cons]
        exact List.Sublist.cons₂ _ (placeV_names_sublist cs _ (fun c hc => ih c hc))
      · rw [List.map_cons]
        exact List.Sublist.cons₂ _ (placeH_names_sublist cs _ (fun c hc => ih c hc))

theorem placeH_names_allPlaced {gap cy cw ch fw : Int} :
    ∀ (cs : List LayoutNode) (curX : Int),
      allPlacedH gap cy cw ch fw cs curX = true →
      (∀ c ∈ cs, ∀ x y w h : Int, allPlaced c x y w h = true →
        (layout_node_recursive c x y w h).map Rectangle.name = preorderNames c) →
      (placeH gap cy cw ch fw cs curX).map Rectangle.name = preorderNamesList cs := by
  intro cs
  induction cs with
  | nil => intro curX _ _; rfl
  | cons c rest ih =>
    intro curX hal hm
    rw [allPlacedH] at hal
    rw [Bool.and_eq_true] at hal
    rw [placeH, preorderNamesList]
    rw [List.map_append,
      hm c (List.mem_cons_self _ _) _ _ _ _ hal.1,
      ih _ hal.2 (fun d hd => hm d (List.mem_cons_of_mem _ hd))]

theorem placeV_names_allPlaced {gap cx cw ch fe : Int} :
    ∀ (cs : List LayoutNode) (curY : Int),
      allPlacedV gap cx cw ch fe cs curY = true →
      (∀ c ∈ cs, ∀ x y w h : Int, allPlaced c x y w h = true →
        (layout_node_recursive c x y w h).map Rectangle.name = preorderNames c) →
      (placeV gap cx cw ch fe cs curY).map Rectangle.name = preorderNamesList cs := by
  intro cs
  induction cs with
  | nil => intro curY _ _; rfl
  | cons c rest ih =>
    intro curY hal hm
    rw [allPlacedV] at hal
    rw [Bool.and_eq_true] at hal
    rw [placeV, preorderNamesList]
    rw [List.map_append,
      hm c (List.mem_cons_self _ _) _ _ _ _ hal.1,
      ih _ hal.2 (fun d hd => hm d (List.mem_cons_of_mem _ hd))]

/-- When every node of the subtree is placed, the emitted names are exactly
the pre-order name list. -/
theorem layout_names_allPlaced (n : LayoutNode) :
    ∀ x y w h : Int, allPlaced n x y w h = true →
      (layout_node_recursive n x y w h).map Rectangle.name = preorderNames n := by
  induction n using LayoutNode.inductionOn with
  | step n ih =>
    cases n with
    | mk nm sz ly b g cs attrs =>
      simp only [LayoutNode.children_mk] at ih
      intro x y w h hap
      rw [allPlaced] at hap
      dsimp only at hap
      rw [layout_node_recursive, preorderNames]
      dsimp only
      split_ifs with h1 h2 h3
      · have : cs = [] := List.isEmpty_iff.mp h1
        subst this
        rfl
      · rw [if_neg h1, if_pos h2] at hap
        cases hap
      · rw [if_neg h1, if_neg h2, if_pos h3] at hap
        rw [List.map_cons]
        rw [placeV_names_allPlaced cs _ hap (fun c hc => ih c hc)]
      · rw [if_neg h1, if_neg h2, if_neg h3] at hap
        rw [List.map_cons]
        rw [placeH_names_allPlaced cs _ hap (fun c hc => ih c hc)]

/-- Claim C7, counterexample: in the border-exhaustion tree of the
repository's own test suite, the produced list holds one rectangle while
the tree holds two nodes — the output is not "exactly one Rectangle per
node". -/
theorem C7_counterexample :
    (layout_tree_to_rectangles cexC7 (50, 50)).length = 1 ∧
    countNodes cexC7 = 2 ∧ (1 : Nat) ≠ 2 :=
  ⟨rfl, rfl, by decide⟩

/-- Claim C7, amended: the produced list contains AT MOST one Rectangle per
node — its name sequence is a sub-sequence of the tree's pre-order name
list (whose length is the node count), the root's rectangle always comes
first — and it is exactly one Rectangle per node, in pre-order, whenever
every placed node with children keeps a positive content area. -/
theorem C7_preorder :
    ∀ (root : LayoutNode) (w h : Int),
      List.Sublist ((layout_tree_to_rectangles root (w, h)).map Rectangle.name) (preorderNames root) ∧
      (preorderNames root).length = countNodes root ∧
      (layout_tree_to_rectangles root (w, h)).head? = some ⟨root.name, 0, 0, w, h⟩ ∧
      (allPlaced root 0 0 w h = true →
        (layout_tree_to_rectangles root (w, h)).map Rectangle.name = preorderNames root) := by
  intro root w h
  exact ⟨layout_names_sublist root 0 0 w h, preorderNames_length root,
    layout_head root 0 0 w h, layout_names_allPlaced root 0 0 w h⟩

/-- Claim C7, witness: the exactly-one-per-node case evaluated on a small
fully-placeable tree. -/
theorem C7_preorder_witness :
    (layout_tree_to_rectangles treeC7w (100, 100)).map Rectangle.name =
      preorderNames treeC7w :=
  (C7_preorder treeC7w 100 100).2.2.2 (by decide)

/-! Claim C3. -/

theorem setSizeShells_append_of_not_mem (name : String) (w h : Option Int) :
    ∀ (A B : List NodeShell), (∀ s ∈ A, s.name ≠ name) →
      setSizeShells name w h (A ++ B) = A ++ setSizeShells name w h B := by
  intro A B hA
  induction A with
  | nil => simp
  | cons s rest ih =>
    rw [List.cons_append, setSizeShells,
      if_neg (hA s (List.mem_cons_self _ _)), List.cons_append,
      ih (fun d hd => hA d (List.mem_cons_of_mem _ hd))]

theorem setSizeShells_append_of_mem (name : String) (w h : Option Int) :
    ∀ (A B : List NodeShell), (∃ s ∈ A, s.name = name) →
      setSizeShells name w h (A ++ B) = setSizeShells name w h A ++ B := by
  intro A B hex
  induction A with
  | nil => obtain ⟨s, hs, _⟩ := hex; cases hs
  | cons s rest ih =>
    by_cases hs : s.name = name
    · rw [List.cons_append, setSizeShells, if_pos hs, setSizeShells, if_pos hs,
        List.cons_append]
    · have hex2 : ∃ d ∈ rest, d.name = name := by
        obtain ⟨d, hd, hdn⟩ := hex
        rcases List.mem_cons.mp hd with rfl | hmem
        · exact absurd hdn hs
        · exact ⟨d, hmem, hdn⟩
      rw [List.cons_append, setSizeShells, if_neg hs, setSizeShells, if_neg hs,
        List.cons_append, ih hex2]

theorem findInChildren_none_iff :
    ∀ (cs : List LayoutNode) (name : String),
      (∀ c ∈ cs, (find_node_by_name c name = none ↔
        ∀ s ∈ preorderShells c, s.name ≠ name)) →
      (findInChildren cs name = none ↔
        ∀ s ∈ preorderShellsList cs, s.name ≠ name) := by
  intro cs name hm
  induction cs with
  | nil => simp [findInChildren, preorderShellsList]
  | cons c rest ih =>
    rw [findInChildren, preorderShellsList]
    cases hf : find_node_by_name c name with
    | some r =>
      constructor
      · intro hcon; cases hcon
      · intro hall
        have hnone : find_node_by_name c name = none :=
          (hm c (List.mem_cons_self _ _)).mpr
            (fun s hs => hall s (List.mem_append.mpr (Or.inl hs)))
        rw [hf] at hnone
        cases hnone
    | none =>
      rw [ih (fun d hd => hm d (List.mem_cons_of_mem _ hd))]
      constructor
      · intro hall s hs
        rcases List.mem_append.mp hs with hsl | hsr
        · exact ((hm c (List.mem_cons_self _ _)).mp hf) s hsl
        · exact hall s hsr
      · intro hall s hs
        exact hall s (List.mem_append.mpr (Or.inr hs))

/-- A name is findable in a tree exactly when some pre-order shell carries
it. -/
theorem find_none_iff (t : LayoutNode) :
    ∀ name : String, find_node_by_name t name = none ↔
      ∀ s ∈ preorderShells t, s.name ≠ name := by
  induction t using LayoutNode.inductionOn with
  | step t ih =>
    cases t with
    | mk nm sz ly b g cs attrs =>
      simp only [LayoutNode.children_mk] at ih
      intro name
      rw [find_node_by_name, preorderShells]
      by_cases hnm : nm = name
      · rw [if_pos hnm]
        constructor
        · intro hcon; cases hcon
        · intro hall
          exact absurd hnm (hall _ (List.mem_cons_self _ _))
      · rw [if_neg hnm]
        rw [findInChildren_none_iff cs name (fun c hc => ih c hc name)]
        constructor
        · intro hall s hs
          rcases List.mem_cons.mp hs with rfl | hmem
          · exact hnm
          · exact hall s hmem
        · intro hall s hs
          exact hall s (List.mem_cons_of_mem _ hs)

theorem setSizeChildren_of_none :
    ∀ (cs : List LayoutNode) (name : String) (w h : Option Int),
      findInChildren cs name = none →
      (∀ c ∈ cs, find_node_by_name c name = none → Layout.set_size c name w h = c) →
      setSizeChildren cs name w h = cs := by
  intro cs name w h hf hm
  induction cs with
  | nil => rfl
  | cons c rest ih =>
    rw [findInChildren] at hf
    cases hfc : find_node_by_name c name with
    | some r => rw [hfc] at hf; cases hf
    | none =>
      rw [hfc] at hf
      dsimp only at hf
      rw [setSizeChildren, if_neg (by simp [hfc]),
        ih hf (fun d hd => hm d (List.mem_cons_of_mem _ hd))]

/-- `set_size` with an unknown name is a no-op on the whole tree. -/
theorem set_size_of_find_none (t : LayoutNode) :
    ∀ (name : String) (w h : Option Int), find_node_by_name t name = none →
      Layout.set_size t name w h = t := by
  induction t using LayoutNode.inductionOn with
  | step t ih =>
    cases t with
    | mk nm sz ly b g cs attrs =>
      simp only [LayoutNode.children_mk] at ih
      intro name w h hf
      rw [find_node_by_name] at hf
      by_cases hnm : nm = name
      · rw [if_pos hnm] at hf; cases hf
      · rw [if_neg hnm] at hf
        rw [Layout.set_size, if_neg hnm,
          setSizeChildren_of_none cs name w h hf (fun c hc => ih c hc name w h)]

theorem setSizeChildren_length :
    ∀ (cs : List LayoutNode) (name : String) (w h : Option Int),
      (setSizeChildren cs name w h).length = cs.length := by
  intro cs name w h
  induction cs with
  | nil => rfl
  | cons c rest ih =>
    rw [setSizeChildren]
    split_ifs
    · simp
    · simp [ih]

theorem preorderShellsList_set (name : String) (w h : Option Int) :
    ∀ cs : List LayoutNode,
      (∀ c ∈ cs, preorderShells (Layout.set_size c name w h) =
        setSizeShells name w h (preorderShells c)) →
      preorderShellsList (setSizeChildren cs name w h) =
        setSizeShells name w h (preorderShellsList cs) := by
  intro cs hm
  induction cs with
  | nil => rfl
  | cons c rest ih =>
    rw [setSizeChildren]
    by_cases hf : (find_node_by_name c name).isSome = true
    · rw [if_pos hf, preorderShellsList, hm c (List.mem_cons_self _ _),
        preorderShellsList]
      have hex : ∃ s ∈ preorderShells c, s.name = name := by
        by_contra hcon
        push_neg at hcon
        have hnone := (find_none_iff c name).mpr hcon
        rw [hnone] at hf
        cases hf
      rw [setSizeShells_append_of_mem name w h _ _ hex]
    · rw [if_neg hf, preorderShellsList, preorderShellsList,
        ih (fun d hd => hm d (List.mem_cons_of_mem _ hd))]
      have hnone : find_node_by_name c name = none := by
        cases hfc : find_node_by_name c name with
        | none => rfl
        | some r => rw [hfc] at hf; exact absurd rfl hf
      rw [setSizeShells_append_of_not_mem name w h _ _
        ((find_none_iff c name).mp hnone)]

/-- Pre-order shell list of the tree after `set_size`: the size of the
first shell with the given name is replaced (both axes), nothing else
changes. -/
theorem set_size_shells (t : LayoutNode) :
    ∀ (name : String) (w h : Option Int),
      preorderShells (Layout.set_size t name w h) =
        setSizeShells name w h (preorderShells t) := by
  induction t using LayoutNode.inductionOn with
  | step t ih =>
    cases t with
    | mk nm sz ly b g cs attrs =>
      simp only [LayoutNode.children_mk] at ih
      intro name w h
      rw [Layout.set_size]
      by_cases hnm : nm = name
      · rw [if_pos hnm, setSizeNode, preorderShells, preorderShells,
          setSizeShells, if_pos (show (shellOf (.mk nm sz ly b g cs attrs)).name = name from hnm)]
        rfl
      · rw [if_neg hnm, preorderShells, preorderShells, setSizeShells,
          if_neg (show ¬(shellOf (.mk nm sz ly b g cs attrs)).name = name from hnm)]
        have hshell : shellOf (.mk nm sz ly b g (setSizeChildren cs name w h) attrs) =
            shellOf (.mk nm sz ly b g cs attrs) := by
          simp [shellOf, setSizeChildren_length]
        rw [hshell, preorderShellsList_set name w h cs (fun c hc => ih c hc name w h)]

/-- Claim C3, counterexample: `set_size(name, width=30)` on a node whose
size is `(10, 20)` leaves `(30, unspecified)` — the absent height argument
does not preserve the existing height spec, it clears it. -/
theorem C3_counterexample :
    (Layout.set_size cexC3 "a" (some 30) none).children.map LayoutNode.size =
      [(some (.pix 30), none), (some (.pix 1), some (.pix 2))] ∧
    (some (SizeVal.pix 30), (none : Option SizeVal)) ≠
      (some (SizeVal.pix 30), some (SizeVal.pix 20)) :=
  ⟨rfl, by decide⟩

/-- Claim C3, amended: `set_size` replaces BOTH axis specs of the first
pre-order node with the given name — a given argument becomes a fixed pixel
spec, an absent argument resets that axis to unspecified — and touches
nothing else (every other shell of the pre-order shell list is unchanged);
the whole tree is unchanged when no node has the name. -/
theorem C3_set_size_semantics :
    ∀ (t : LayoutNode) (name : String) (w h : Option Int),
      (find_node_by_name t name = none → Layout.set_size t name w h = t) ∧
      preorderShells (Layout.set_size t name w h) =
        setSizeShells name w h (preorderShells t) := by
  intro t name w h
  exact ⟨set_size_of_find_none t name w h, set_size_shells t name w h⟩

/-- Claim C3, witness: both halves evaluated on the concrete tree — a
`set_size` on an unknown name is the identity, and a `set_size` on `"a"`
rewrites exactly the first matching shell. -/
theorem C3_set_size_semantics_witness :
    Layout.set_size cexC3 "zzz" (some 7) none = cexC3 ∧
    preorderShells (Layout.set_size cexC3 "a" (some 30) none) =
      setSizeShells "a" (some 30) none (preorderShells cexC3) :=
  ⟨(C3_set_size_semantics cexC3 "zzz" (some 7) none).1 rfl,
   (C3_set_size_semantics cexC3 "a" (some 30) none).2⟩
